import Mathlib

/-!
Verification of the sideload package installer (`sideload.py`).

The development shallowly embeds the installer's core decision procedures:
archive-type classification (`Package._detect_type`), extraction bookkeeping
(`Package.extract`), scratch-directory cleanup (`Package.cleanup`),
payload-directory location and executable discovery for DEB packages
(`PackageInstaller._install_deb`), icon scoring for tar.gz packages
(`Package._find_icon_deep`), icon installation (`PackageInstaller._install_icon`),
the tar.gz install path (`PackageInstaller._install_targz`) and the
server-detection heuristic (`PackageInstaller._detect_server_app`).

Filesystem trees are embedded as explicit lists of entries; the enumeration
order of such a list stands for the (arbitrary but deterministic) order in
which `os.walk` / `Path.iterdir` / `Path.rglob` yield entries.  Strings are
assumed ASCII where Python lowercases them.
-/

/-- Lowercase a single ASCII character, as Python `str.lower` does on ASCII. -/
def lowerChar (c : Char) : Char :=
  if 'A' ≤ c && c ≤ 'Z' then Char.ofNat (c.toNat + 32) else c

/-- ASCII embedding of Python `str.lower`. -/
def asciiLower (s : String) : String :=
  String.mk (s.toList.map lowerChar)

/-- Whether `pat` is an initial segment of `l`. -/
def startsList : List Char → List Char → Bool
  | [], _ => true
  | _ :: _, [] => false
  | p :: ps, x :: xs => p == x && startsList ps xs

/-- Whether `pat` occurs contiguously somewhere in `l`. -/
def infixList (pat : List Char) : List Char → Bool
  | [] => startsList pat []
  | x :: xs => startsList pat (x :: xs) || infixList pat xs

/-- Python substring test `needle in hay`. -/
def pyIn (needle hay : String) : Bool :=
  infixList needle.toList hay.toList

/-- Python `str.endswith`. -/
def pyEndsWith (s suf : String) : Bool :=
  startsList suf.toList.reverse s.toList.reverse

/-- First token of Python `s.split(sep)[0]`. -/
def firstTok (s : String) (sep : Char) : String :=
  String.mk (s.toList.takeWhile (fun c => c != sep))

/-- Index of the last `'.'` in a character list (Python `str.rfind('.')`),
`none` when absent. -/
def rfindDotAux : List Char → Nat → Option Nat
  | [], _ => none
  | c :: cs, i =>
    match rfindDotAux cs (i + 1) with
    | some j => some j
    | none => if c == '.' then some i else none

/-- Index of the last `'.'` of a character list, from position 0. -/
def rfindDot (cs : List Char) : Option Nat :=
  rfindDotAux cs 0

/-- Embedding of `pathlib.PurePath.suffix` applied to a file name: the part
from the last dot on, provided that dot is neither the first nor the last
character; empty otherwise. -/
def pySuffix (name : String) : String :=
  let cs := name.toList
  match rfindDot cs with
  | some i => if 0 < i && i + 1 < cs.length then String.mk (cs.drop i) else ""
  | none => ""

/-- Embedding of `pathlib.PurePath.stem` applied to a file name. -/
def pyStem (name : String) : String :=
  let cs := name.toList
  match rfindDot cs with
  | some i => if 0 < i && i + 1 < cs.length then String.mk (cs.take i) else name
  | none => name

/-- App-id normalization used throughout the installer:
`name.lower().replace(' ', '-')`. -/
def normName (s : String) : String :=
  String.mk ((asciiLower s).toList.map (fun c => if c == ' ' then '-' else c))

/-- Package kinds recognized by `Package._detect_type`. -/
inductive PackageType
  | DEB
  | TAR_GZ
  | UNKNOWN
deriving DecidableEq, Repr

/-- Embedding of `Package._detect_type`: classify by the lowercased file
name's suffix. -/
def detectType (fileName : String) : PackageType :=
  let n := asciiLower fileName
  if pyEndsWith n ".deb" then .DEB
  else if pyEndsWith n ".tar.gz" || pyEndsWith n ".tgz" then .TAR_GZ
  else .UNKNOWN

/-- The mutable part of a `Package` tracked by the claims: the scratch
directory handle (`extract_dir`), `none` until set. Scratch directories are
identified by a natural number. -/
structure PackageState where
  extract_dir : Option Nat
deriving DecidableEq, Repr

/-- A freshly constructed `Package`: `extract_dir` defaults to `None`. -/
def PackageState.init : PackageState := { extract_dir := none }

/-- External extraction tools the installer can invoke. -/
inductive ExtractTool
  | dpkgDeb
  | ar
  | tar
deriving DecidableEq, Repr

/-- Result of `Package.extract`: the boolean returned, the package state
after the call, and the extraction tools invoked (in order). -/
structure ExtractOutcome where
  ok : Bool
  st : PackageState
  tools : List ExtractTool
deriving DecidableEq, Repr

/-- Embedding of `Package._extract_deb`. `toolOk t` tells whether invoking
tool `t` exits with status 0; `hasDataTar` tells whether the `ar` unpacking
left a `data.tar*` member. `dpkg-deb` failure falls back to `ar` + `tar`,
both run with `check=True` (a non-zero exit raises, which `extract` turns
into `False`). -/
def extractDeb (toolOk : ExtractTool → Bool) (hasDataTar : Bool) :
    Bool × List ExtractTool :=
  if toolOk .dpkgDeb then (true, [.dpkgDeb])
  else if !toolOk .ar then (false, [.dpkgDeb, .ar])
  else if hasDataTar then
    if toolOk .tar then (true, [.dpkgDeb, .ar, .tar])
    else (false, [.dpkgDeb, .ar, .tar])
  else (true, [.dpkgDeb, .ar])

/-- Embedding of `Package._extract_targz`: one `tar -xzf` call with
`check=True`. -/
def extractTargz (toolOk : ExtractTool → Bool) : Bool × List ExtractTool :=
  if toolOk .tar then (true, [.tar]) else (false, [.tar])

/-- Embedding of `Package.extract`: it first creates a scratch directory
(`tempfile.mkdtemp`) and stores it in `extract_dir`, then dispatches on the
package type; an `UNKNOWN` type returns `False` without running any tool. -/
def pkgExtract (ty : PackageType) (tmp : Nat) (_st : PackageState)
    (toolOk : ExtractTool → Bool) (hasDataTar : Bool) : ExtractOutcome :=
  let st' : PackageState := { extract_dir := some tmp }
  match ty with
  | .DEB =>
    let r := extractDeb toolOk hasDataTar
    { ok := r.1, st := st', tools := r.2 }
  | .TAR_GZ =>
    let r := extractTargz toolOk
    { ok := r.1, st := st', tools := r.2 }
  | .UNKNOWN => { ok := false, st := st', tools := [] }

/-- Embedding of `Package.cleanup` acting on the set of existing scratch
directories: if `extract_dir` is set and that directory exists, it is
removed (`shutil.rmtree` with `ignore_errors=True`); otherwise nothing
happens. The function is total: no exception escapes. -/
def cleanup (scratch : List Nat) (st : PackageState) : List Nat :=
  match st.extract_dir with
  | some d => if scratch.contains d then scratch.filter (fun x => x != d) else scratch
  | none => scratch

/-- One entry of an extracted archive tree: its path (components relative to
the extraction root, never empty), whether it is a directory, and whether its
executable permission bit is set. -/
structure Entry where
  path : List String
  isDir : Bool
  isExec : Bool
deriving DecidableEq, Repr

/-- An extracted tree: the list order is the deterministic enumeration order
of `os.walk` / `Path.iterdir` / `Path.rglob`. -/
abbrev FS := List Entry

/-- Final path component of an entry (its file name). -/
def lastName (e : Entry) : String :=
  e.path.getLastD ""

/-- Whether a path exists in the tree (`Path.exists`). -/
def FS.existsPath (fs : FS) (p : List String) : Bool :=
  fs.any (fun e => e.path == p)

/-- Whether a path exists and is a directory (`Path.is_dir`). -/
def FS.isDirAt (fs : FS) (p : List String) : Bool :=
  fs.any (fun e => e.path == p && e.isDir)

/-- The immediate children of a directory, in enumeration order
(`Path.iterdir`). -/
def FS.childrenOf (fs : FS) (p : List String) : List Entry :=
  fs.filter (fun e => !e.path.isEmpty && e.path.dropLast == p)

/-- All entries strictly below a directory, rebased to be relative to it
(the contents `shutil.copytree` would reproduce at a new root). -/
def FS.subtreeUnder (fs : FS) (d : List String) : List Entry :=
  (fs.filter (fun e => d.length < e.path.length && e.path.take d.length == d)).map
    (fun e => { e with path := e.path.drop d.length })

/-- The regular files directly inside a directory, rebased
(`Path.iterdir` filtered by `is_file`). -/
def FS.topFilesUnder (fs : FS) (d : List String) : List Entry :=
  (fs.filter (fun e =>
      !e.isDir && e.path.length == d.length + 1 && e.path.take d.length == d)).map
    (fun e => { e with path := e.path.drop d.length })

/-- Well-formedness of a tree: paths are nonempty, and every entry lying
below the top level has its parent present as a directory entry.  Any tree
produced by an actual extraction satisfies this. -/
def FS.wfb (fs : FS) : Bool :=
  fs.all (fun e =>
    !e.path.isEmpty &&
      (e.path.dropLast.isEmpty ||
        fs.any (fun q => q.path == e.path.dropLast && q.isDir)))

/-- Install modes for the DEB payload: copy a whole directory, or copy loose
binaries out of `usr/bin` (`install_mode = "dir" | "bin"` in
`_install_deb`). -/
inductive InstallDirMode
  | dir
  | bin
deriving DecidableEq, Repr

/-- Step 1 of `_install_deb`'s payload search: if `opt/` exists, the first
subdirectory found under it. -/
def optChoiceSrc (fs : FS) : Option (List String) :=
  if fs.existsPath ["opt"] then
    (((fs.childrenOf ["opt"]).filter (fun e => e.isDir)).head?).map (fun e => e.path)
  else none

/-- Step 2 of `_install_deb`'s payload search: for `usr/lib` then
`usr/share` (when the base exists), the first of the candidate names that
exists as a directory under it. -/
def usrChoiceSrc (fs : FS) (names : List String) : Option (List String) :=
  [["usr", "lib"], ["usr", "share"]].findSome? (fun base =>
    if fs.existsPath base then
      names.findSome? (fun n =>
        if fs.existsPath (base ++ [n]) && fs.isDirAt (base ++ [n]) then
          some (base ++ [n])
        else none)
    else none)

/-- Step 3 of `_install_deb`'s payload search: `usr/bin`, when it exists and
is non-empty, taken in loose-binaries mode. -/
def binChoiceSrc (fs : FS) : Option (List String × InstallDirMode) :=
  if fs.existsPath ["usr", "bin"] && !(fs.childrenOf ["usr", "bin"]).isEmpty then
    some (["usr", "bin"], .bin)
  else none

/-- The name candidates `_install_deb` tries under `usr/lib` / `usr/share`:
normalized name, original name, first underscore token of the archive file
stem. -/
def searchNamesOf (name stem : String) : List String :=
  [normName name, name, firstTok stem '_']

/-- Embedding of `_install_deb`'s payload-directory search (source lines
310-344): `opt/` first, then the named directories under `usr/lib` and
`usr/share`, then a non-empty `usr/bin` in loose-binaries mode. -/
def locatePayloadDeb (fs : FS) (name stem : String) :
    Option (List String × InstallDirMode) :=
  match optChoiceSrc fs with
  | some d => some (d, .dir)
  | none =>
    match usrChoiceSrc fs (searchNamesOf name stem) with
    | some d => some (d, .dir)
    | none => binChoiceSrc fs

/-- Restatement of claim step (1) in the spec's words: the first
subdirectory under `opt/`, if any exists. -/
def optChoiceSpec (fs : FS) : Option (List String) :=
  (((fs.childrenOf ["opt"]).filter (fun e => e.isDir)).head?).map (fun e => e.path)

/-- Restatement of claim step (2) in the spec's words: searching `usr/lib`
then `usr/share`, the first existing directory whose name matches one of the
candidates, tried in order. -/
def usrChoiceSpec (fs : FS) (names : List String) : Option (List String) :=
  [["usr", "lib"], ["usr", "share"]].findSome? (fun base =>
    names.findSome? (fun n =>
      if fs.isDirAt (base ++ [n]) then some (base ++ [n]) else none))

/-- Restatement of claim step (3) in the spec's words. -/
def binChoiceSpec (fs : FS) : Option (List String × InstallDirMode) :=
  if fs.existsPath ["usr", "bin"] && !(fs.childrenOf ["usr", "bin"]).isEmpty then
    some (["usr", "bin"], .bin)
  else none

/-- The payload-location rule exactly as the claim states it. -/
def locatePayloadSpec (fs : FS) (name stem : String) :
    Option (List String × InstallDirMode) :=
  match optChoiceSpec fs with
  | some d => some (d, .dir)
  | none =>
    match usrChoiceSpec fs (searchNamesOf name stem) with
    | some d => some (d, .dir)
    | none => binChoiceSpec fs

/-- An icon candidate as `_find_icon_deep` sees it: `full` is the complete
path string `str(icon)` (scratch-directory prefix included, since the size
tokens are searched in it), `name` is the file name `icon.name`. -/
structure IconCand where
  full : String
  name : String
deriving DecidableEq, Repr

/-- Embedding of the `score` closure in `Package._find_icon_deep`:
+100 for "icon"/"logo" in the lowercased file name, +50 when the lowercased
app name occurs in it, plus the first of the size tokens 256/128/64/48 found
in the lowercased full path (checked in that order, only one counted), +10
for a literal `.png` suffix. -/
def iconScore (appName : String) (c : IconCand) : Nat :=
  let nm := asciiLower c.name
  let ps := asciiLower c.full
  (if pyIn "icon" nm || pyIn "logo" nm then 100 else 0) +
    (if pyIn (asciiLower appName) nm then 50 else 0) +
    (if pyIn "256" ps then 256
     else if pyIn "128" ps then 128
     else if pyIn "64" ps then 64
     else if pyIn "48" ps then 48
     else 0) +
    (if pySuffix c.name == ".png" then 10 else 0)

/-- Stable insertion into a list kept in descending score order: an element
is placed before the first element whose score does not exceed its own, so
earlier-encountered elements stay ahead of equal-scored later ones. -/
def insertDesc (score : α → Nat) (x : α) : List α → List α
  | [] => [x]
  | y :: ys => if score y ≤ score x then x :: y :: ys else y :: insertDesc score x ys

/-- Stable sort by descending score: the embedding of Python
`list.sort(key=score, reverse=True)` (extensionally equal to it, both being
stable descending sorts). -/
def sortDesc (score : α → Nat) : List α → List α
  | [] => []
  | x :: xs => insertDesc score x (sortDesc score xs)

/-- Embedding of `Package._find_icon_deep`'s selection step: sort all
candidates by descending score (stably) and take the first; `none` when
there is no candidate. -/
def findIconDeep (appName : String) (cands : List IconCand) : Option IconCand :=
  (sortDesc (iconScore appName) cands).head?

/-- First element attaining the maximal score, computed recursively: a
reference selection function used to state the claim's tie-break rule. -/
def firstMaxRec (score : α → Nat) : List α → Option α
  | [] => none
  | x :: xs =>
    match firstMaxRec score xs with
    | none => some x
    | some m => if score m ≤ score x then some x else some m

/-- Candidate gathering of `_find_icon_deep`: the `rglob` results for the
extensions png, svg, ico, xpm, concatenated in that order. `root` is the
scratch-directory path string prefixed to every entry. -/
def gatherIcons (fs : FS) (root : String) : List IconCand :=
  (["png", "svg", "ico", "xpm"].map (fun ext =>
    (fs.filter (fun e => pyEndsWith (lastName e) ("." ++ ext))).map (fun e =>
      { full := root ++ "/" ++ String.intercalate "/" e.path,
        name := lastName e }))).flatten

/-- Outcome of the `--help` probe run by `_detect_server_app`:
`completed` carries the exit status and the captured streams; `timedOut`
and `execFailed` are the exceptional outcomes (`TimeoutExpired`, `OSError`). -/
inductive ProbeOutcome
  | completed (exitCode : Int) (stdout : String) (stderr : String)
  | timedOut
  | execFailed
deriving DecidableEq, Repr

/-- Trigger words of the server heuristic. -/
def serverWords : List String := ["server", "serve", "daemon", "start", "stop"]

/-- Embedding of `PackageInstaller._detect_server_app`: when the probe
completes (whatever its exit status), match the lowercased combined output
against the trigger words; any raised exception yields `false`. -/
def detectServerApp (probe : ProbeOutcome) : Bool :=
  match probe with
  | .completed _ out err => serverWords.any (fun w => pyIn w (asciiLower (out ++ err)))
  | .timedOut => false
  | .execFailed => false

/-- The server heuristic exactly as the claim states it: a non-zero exit is
also treated as "not a server". -/
def detectServerClaim (probe : ProbeOutcome) : Bool :=
  match probe with
  | .completed code out err =>
    if code != 0 then false
    else serverWords.any (fun w => pyIn w (asciiLower (out ++ err)))
  | .timedOut => false
  | .execFailed => false

/-- The per-user application-data root `~/.local/share`, modelled as an
association list from app id to the contents of `~/.local/share/<app-id>/`. -/
abbrev Store := List (String × List Entry)

/-- Contents of an install directory, if present. -/
def storeLookup (s : Store) (k : String) : Option (List Entry) :=
  (s.find? (fun p => p.1 == k)).map (fun p => p.2)

/-- `shutil.rmtree` on an install directory (no-op when absent). -/
def storeRemove (s : Store) (k : String) : Store :=
  s.filter (fun p => !(p.1 == k))

/-- Creation of an install directory with the given contents. -/
def storeInsert (s : Store) (k : String) (v : List Entry) : Store :=
  (k, v) :: s

/-- Embedding of `InstallResult`. The executable is recorded as a path
relative to the install directory. -/
structure InstallResultM where
  success : Bool
  message : String
  app_name : String
  executable : Option (List String)
deriving DecidableEq, Repr

/-- Embedding of `PackageInstaller._install_icon`: nothing happens without
an existing icon; otherwise the destination file name in the per-user icon
directory is `<hint><suffix>` when a name hint is given and the icon's own
file name when not. `copyOk` models `shutil.copy2` succeeding (a failure is
swallowed and yields `None`). -/
def installIcon (icon : Option String) (iconExists copyOk : Bool)
    (nameHint : Option String) : Option String :=
  match icon with
  | none => none
  | some iconName =>
    if !iconExists then none
    else if !copyOk then none
    else
      match nameHint with
      | some hint => some (hint ++ pySuffix iconName)
      | none => some iconName

/-- Extensions excluded from executable discovery in `_install_deb`. -/
def excludedExtsDeb : List String :=
  [".so", ".a", ".sh", ".png", ".svg", ".jpg", ".txt", ".md"]

/-- The executable candidates `_install_deb` collects in whole-directory
mode: every walked file with the executable bit set whose suffix is not
excluded, in walk order. -/
def debDirCandidates (contents : List Entry) : List Entry :=
  contents.filter (fun e =>
    !e.isDir && e.isExec && !excludedExtsDeb.contains (pySuffix (lastName e)))

/-- Embedding of `_install_deb`'s executable choice in whole-directory mode
(source lines 358-374): the first candidate whose lowercased stem is the
normalized app name, the lowercased app name, or the literal
`"kiro-account-manager"`; otherwise the first candidate. -/
def debPickExec (name : String) (contents : List Entry) : Option Entry :=
  let cands := debDirCandidates contents
  match cands.find? (fun c =>
      [normName name, asciiLower name, "kiro-account-manager"].contains
        (asciiLower (pyStem (lastName c)))) with
  | some c => some c
  | none => cands.head?

/-- The whole-directory executable choice exactly as the claim states it:
only the normalized and the original app name are preferred. -/
def debPickExecClaim (name : String) (contents : List Entry) : Option Entry :=
  let cands := debDirCandidates contents
  match cands.find? (fun c =>
      asciiLower (pyStem (lastName c)) == normName name ||
        asciiLower (pyStem (lastName c)) == asciiLower name) with
  | some c => some c
  | none => cands.head?

/-- The whole-directory executable choice as the claim must be amended: the
hard-coded name `"kiro-account-manager"` is preferred alongside the
normalized and original app names. -/
def debPickExecAmended (name : String) (contents : List Entry) : Option Entry :=
  let cands := debDirCandidates contents
  match cands.find? (fun c =>
      asciiLower (pyStem (lastName c)) == normName name ||
        asciiLower (pyStem (lastName c)) == asciiLower name ||
        asciiLower (pyStem (lastName c)) == "kiro-account-manager") with
  | some c => some c
  | none => cands.head?

/-- Embedding of `_install_deb`'s executable choice in loose-binaries mode
(source lines 376-390): while copying the files of `usr/bin`, the last one
whose lowercased stem equals the normalized app name; failing that, the
first copied file with the executable bit set. -/
def debPickExecBin (name : String) (copied : List Entry) : Option Entry :=
  match (copied.filter (fun f =>
      asciiLower (pyStem (lastName f)) == normName name)).getLast? with
  | some f => some f
  | none => copied.find? (fun f => f.isExec)

/-- The entries `shutil.copytree(pkg usr/lib, final/lib)` adds below the
install directory: the `lib` directory itself plus the rebased subtree. -/
def libEntries (fs : FS) : List Entry :=
  { path := ["lib"], isDir := true, isExec := false } ::
    (fs.subtreeUnder ["usr", "lib"]).map (fun e => { e with path := "lib" :: e.path })

/-- Embedding of step 3 of `_install_deb` (source lines 392-402): when the
package has a `usr/lib` and the install directory exists without a `lib`
subdirectory yet, copy `usr/lib` in as `lib`. -/
def libStep (fs : FS) (store : Store) (appId : String) : Store :=
  if fs.existsPath ["usr", "lib"] then
    match storeLookup store appId with
    | some contents =>
      if contents.any (fun e => e.path == ["lib"]) then store
      else storeInsert (storeRemove store appId) appId (contents ++ libEntries fs)
    | none => store
  else store

/-- Combined outcome of `_install_deb`: the returned `InstallResult`, the
application-data store after the call, and the icon destination file name. -/
structure DebOutcome where
  result : InstallResultM
  store : Store
  iconDest : Option String
deriving DecidableEq, Repr

/-- Embedding of `PackageInstaller._install_deb` (source lines 305-438).
`fs` is the extracted tree, `name` the package name, `stem` the archive file
stem; the icon parameters feed `_install_icon` (called with no name hint).
The desktop-entry side effects are not modelled. -/
def installDeb (fs : FS) (name stem : String) (icon : Option String)
    (iconExists copyOk : Bool) (store : Store) : DebOutcome :=
  let appId := normName name
  let iconDest := installIcon icon iconExists copyOk none
  match locatePayloadDeb fs name stem with
  | none =>
    -- no payload: the install directory is not touched by step 2, but step 3
    -- still copies `usr/lib` into a pre-existing install directory
    let store₁ := libStep fs store appId
    { result := { success := true, message := name ++ " 已成功安装",
                  app_name := appId, executable := none },
      store := store₁, iconDest := iconDest }
  | some (d, mode) =>
    match mode with
    | .dir =>
      let contents := fs.subtreeUnder d
      let store₀ := storeInsert (storeRemove store appId) appId contents
      let exec := debPickExec name contents
      let store₁ := libStep fs store₀ appId
      { result := { success := true, message := name ++ " 已成功安装",
                    app_name := appId, executable := exec.map (fun e => e.path) },
        store := store₁, iconDest := iconDest }
    | .bin =>
      let copied := fs.topFilesUnder d
      let store₀ := storeInsert (storeRemove store appId) appId copied
      let exec := debPickExecBin name copied
      let store₁ := libStep fs store₀ appId
      { result := { success := true, message := name ++ " 已成功安装",
                    app_name := appId, executable := exec.map (fun e => e.path) },
        store := store₁, iconDest := iconDest }

/-- The tar.gz executable candidates (source lines 448-450): every file in
the tree with the executable bit set whose suffix is not `.so`, `.a` or
`.sh`, in `rglob` order. -/
def targzCandidates (fs : FS) : List Entry :=
  fs.filter (fun e =>
    !e.isDir && e.isExec && !([".so", ".a", ".sh"].contains (pySuffix (lastName e))))

/-- Combined outcome of `_install_targz`. -/
structure TargzOutcome where
  result : InstallResultM
  store : Store
  iconDest : Option String
deriving DecidableEq, Repr

/-- Embedding of `PackageInstaller._install_targz` (source lines 440-491):
fail when there is no executable candidate; otherwise replace the install
directory with the whole extracted tree, link the first candidate, and
install the icon renamed to the app id. -/
def installTargz (fs : FS) (name : String) (icon : Option String)
    (iconExists copyOk : Bool) (store : Store) : TargzOutcome :=
  let appId := normName name
  match (targzCandidates fs).head? with
  | none =>
    { result := { success := false, message := "未找到可执行文件",
                  app_name := "", executable := none },
      store := store, iconDest := none }
  | some e =>
    let store₁ := storeInsert (storeRemove store appId) appId fs
    { result := { success := true, message := name ++ " 已成功安装",
                  app_name := appId, executable := some e.path },
      store := store₁,
      iconDest := installIcon icon iconExists copyOk (some appId) }

/-! Helper lemmas. -/

theorem head?_memL {α : Type} {l : List α} {a : α} (h : l.head? = some a) : a ∈ l := by
  cases l with
  | nil => cases h
  | cons x xs => simp at h; simp [h]

theorem find?_ext {α : Type} {p q : α → Bool} (h : ∀ a, p a = q a) (l : List α) :
    l.find? p = l.find? q := by
  induction l with
  | nil => rfl
  | cons a t ih => rw [List.find?_cons, List.find?_cons, h a, ih]

theorem findSome?_ext {α β : Type} {f g : α → Option β} (h : ∀ a, f a = g a)
    (l : List α) : l.findSome? f = l.findSome? g := by
  induction l with
  | nil => rfl
  | cons a t ih => cases hfa : f a <;> simp [List.findSome?, hfa, ← h a, ih]

theorem contains_filter_ne (l : List Nat) (d : Nat) :
    (l.filter (fun x => x != d)).contains d = false := by
  simp [List.contains, List.mem_filter]

theorem contains_three (x a b c : String) :
    [a, b, c].contains x = (x == a || x == b || x == c) := by
  cases h1 : x == a <;> cases h2 : x == b <;> cases h3 : x == c <;>
    simp [List.contains, List.elem, h1, h2, h3]

theorem storeLookup_insert (s : Store) (k : String) (v : List Entry) :
    storeLookup (storeInsert s k v) k = some v := by
  simp [storeLookup, storeInsert, List.find?]

/-- C4 counterexample input: `"APP.DEB"` does not (case-sensitively) end in
any of the three suffixes, yet it is classified `DEB`, not `UNKNOWN`,
because `_detect_type` lowercases the name first. -/
theorem detect_type_case_cex :
    pyEndsWith "APP.DEB" ".deb" = false ∧
    pyEndsWith "APP.DEB" ".tar.gz" = false ∧
    pyEndsWith "APP.DEB" ".tgz" = false ∧
    detectType "APP.DEB" = PackageType.DEB := by
  refine ⟨?_, ?_, ?_, ?_⟩ <;> decide

/-- C4 (amended): for every archive whose lowercased file name ends in none
of `.deb`, `.tar.gz`, `.tgz`, classification yields `UNKNOWN` and
`extract` returns `False` invoking no extraction tool. -/
theorem unknown_type_no_extraction (fn : String) (tmp : Nat) (st : PackageState)
    (toolOk : ExtractTool → Bool) (hdt : Bool)
    (h1 : pyEndsWith (asciiLower fn) ".deb" = false)
    (h2 : pyEndsWith (asciiLower fn) ".tar.gz" = false)
    (h3 : pyEndsWith (asciiLower fn) ".tgz" = false) :
    detectType fn = PackageType.UNKNOWN ∧
    (pkgExtract (detectType fn) tmp st toolOk hdt).ok = false ∧
    (pkgExtract (detectType fn) tmp st toolOk hdt).tools = [] := by
  have hty : detectType fn = PackageType.UNKNOWN := by
    simp [detectType, h1, h2, h3]
  refine ⟨hty, ?_, ?_⟩ <;> rw [hty] <;> rfl

/-- Witness for `unknown_type_no_extraction` at the file name
`"notes.txt"`. -/
theorem unknown_type_no_extraction_witness :
    pyEndsWith (asciiLower "notes.txt") ".deb" = false ∧
    pyEndsWith (asciiLower "notes.txt") ".tar.gz" = false ∧
    pyEndsWith (asciiLower "notes.txt") ".tgz" = false ∧
    (detectType "notes.txt" = PackageType.UNKNOWN ∧
      (pkgExtract (detectType "notes.txt") 0 PackageState.init (fun _ => true) false).ok = false ∧
      (pkgExtract (detectType "notes.txt") 0 PackageState.init (fun _ => true) false).tools = []) :=
  ⟨by decide, by decide, by decide,
    unknown_type_no_extraction "notes.txt" 0 PackageState.init (fun _ => true) false
      (by decide) (by decide) (by decide)⟩

/-- C6 counterexample: a probe that completes with exit status 1 and prints
"start" is classified as a server by the code, while the claim says a
non-zero exit means "not a server". -/
theorem detect_server_exit_code_cex :
    detectServerApp (.completed 1 "" "Usage: foo start") = true ∧
    detectServerClaim (.completed 1 "" "Usage: foo start") = false := by
  refine ⟨?_, ?_⟩ <;> decide

/-- C6 (amended): only a timeout or an exec error is treated as "not a
server"; when the probe completes, its exit status is ignored and the
lowercased combined output is matched against the trigger words. -/
theorem detect_server_amended (c : Int) (o e : String) :
    detectServerApp .timedOut = false ∧
    detectServerApp .execFailed = false ∧
    detectServerApp (.completed c o e) = detectServerApp (.completed 0 o e) ∧
    detectServerApp (.completed c o e) =
      serverWords.any (fun w => pyIn w (asciiLower (o ++ e))) :=
  ⟨rfl, rfl, rfl, rfl⟩

/-- C8 counterexample: extracting an `UNKNOWN` package fails, yet
`extract_dir` is no longer `None` afterwards, because `extract` records the
scratch directory before dispatching on the type. -/
theorem extract_dir_set_on_failure_cex :
    (pkgExtract PackageType.UNKNOWN 0 PackageState.init (fun _ => true) false).ok = false ∧
    (pkgExtract PackageType.UNKNOWN 0 PackageState.init (fun _ => true) false).st.extract_dir ≠
      none := by
  refine ⟨rfl, ?_⟩
  intro h
  cases h

/-- C8 (amended): `extract_dir` is `None` on a freshly constructed package
and is set to the scratch directory by every `extract` call, whether the
extraction succeeds or fails. -/
theorem extract_dir_always_set (ty : PackageType) (tmp : Nat) (st : PackageState)
    (toolOk : ExtractTool → Bool) (hdt : Bool) :
    (pkgExtract ty tmp st toolOk hdt).st.extract_dir = some tmp ∧
    PackageState.init.extract_dir = none := by
  cases ty <;> exact ⟨rfl, rfl⟩

/-- C10: `cleanup` is idempotent, a no-op before any extraction attempt
(`extract_dir = None`), and removes the recorded scratch directory when it
exists; it is a total function, so no exception escapes it. -/
theorem cleanup_safe_idempotent (scratch : List Nat) (st : PackageState) :
    cleanup (cleanup scratch st) st = cleanup scratch st ∧
    (st.extract_dir = none → cleanup scratch st = scratch) ∧
    (∀ d, st.extract_dir = some d → (cleanup scratch st).contains d = false) := by
  cases hst : st.extract_dir with
  | none => simp [cleanup, hst]
  | some d =>
    have hfilter : ¬((scratch.filter (fun x => x != d)).contains d = true) := by
      simp [contains_filter_ne]
    refine ⟨?_, ?_, ?_⟩
    · by_cases hc : scratch.contains d = true
      · have h1 : cleanup scratch st = scratch.filter (fun x => x != d) := by
          simp only [cleanup, hst]; rw [if_pos hc]
        rw [h1]
        simp only [cleanup, hst]
        rw [if_neg hfilter]
      · simp only [cleanup, hst]
        rw [if_neg hc, if_neg hc]
    · intro h; simp at h
    · intro d' hd'
      injection hd' with hdd
      subst hdd
      by_cases hc : scratch.contains d = true
      · simp only [cleanup, hst]
        rw [if_pos hc]
        exact contains_filter_ne scratch d
      · simp only [cleanup, hst]
        rw [if_neg hc]
        exact Bool.eq_false_iff.mpr (fun hcc => hc hcc)

/-- Witness for `cleanup_safe_idempotent` on concrete states. -/
theorem cleanup_safe_idempotent_witness :
    cleanup (cleanup [3, 5] { extract_dir := some 5 }) { extract_dir := some 5 } =
      cleanup [3, 5] { extract_dir := some 5 } ∧
    cleanup [3, 5] { extract_dir := none } = [3, 5] ∧
    (cleanup [3, 5] { extract_dir := some 5 }).contains 5 = false :=
  ⟨(cleanup_safe_idempotent [3, 5] { extract_dir := some 5 }).1,
    (cleanup_safe_idempotent [3, 5] { extract_dir := none }).2.1 rfl,
    (cleanup_safe_idempotent [3, 5] { extract_dir := some 5 }).2.2 5 rfl⟩

/-- A small well-formed DEB tree with an `opt/` payload, used by concrete
witnesses. -/
def sampleDebTree : FS := [
  { path := ["opt"], isDir := true, isExec := false },
  { path := ["opt", "readme.txt"], isDir := false, isExec := false },
  { path := ["opt", "myapp"], isDir := true, isExec := false },
  { path := ["opt", "myapp", "run"], isDir := false, isExec := true },
  { path := ["usr"], isDir := true, isExec := false },
  { path := ["usr", "bin"], isDir := true, isExec := false },
  { path := ["usr", "bin", "tool"], isDir := false, isExec := true }]

/-- A tar.gz tree whose only executable-bit file has the excluded suffix
`.sh`, so the executable-candidate set is empty. -/
def shOnlyTree : FS := [
  { path := ["doc.sh"], isDir := false, isExec := true },
  { path := ["readme.md"], isDir := false, isExec := false }]

/-- A tar.gz tree with a single executable `tool`. -/
def sampleToolTree : FS := [
  { path := ["tool"], isDir := false, isExec := true },
  { path := ["readme.md"], isDir := false, isExec := false }]

/-- C5: installing a tar.gz tree with no executable candidate (executable
bit outside `.so`/`.a`/`.sh`) fails, while a DEB install whose executable
resolution came up empty still succeeds with an empty executable field. -/
theorem targz_fail_deb_soft (fsT fsD : FS) (nmT nmD stem : String)
    (icT icD : Option String) (ieT coT ieD coD : Bool) (stT stD : Store)
    (hT : targzCandidates fsT = [])
    (_hD : (installDeb fsD nmD stem icD ieD coD stD).result.executable = none) :
    (installTargz fsT nmT icT ieT coT stT).result.success = false ∧
    (installTargz fsT nmT icT ieT coT stT).result.executable = none ∧
    (installDeb fsD nmD stem icD ieD coD stD).result.success = true := by
  refine ⟨?_, ?_, ?_⟩
  · simp [installTargz, hT]
  · simp [installTargz, hT]
  · cases hloc : locatePayloadDeb fsD nmD stem with
    | none => simp [installDeb, hloc]
    | some dm =>
      obtain ⟨d, m⟩ := dm
      cases m <;> simp [installDeb, hloc]

/-- Witness for `targz_fail_deb_soft`: `shOnlyTree` has no candidate, and a
DEB with an empty tree resolves no executable. -/
theorem targz_fail_deb_soft_witness :
    targzCandidates shOnlyTree = [] ∧
    (installDeb [] "A" "a_1_amd64" none false false []).result.executable = none ∧
    ((installTargz shOnlyTree "B" none false false []).result.success = false ∧
      (installTargz shOnlyTree "B" none false false []).result.executable = none ∧
      (installDeb [] "A" "a_1_amd64" none false false []).result.success = true) :=
  ⟨by decide, by decide,
    targz_fail_deb_soft shOnlyTree [] "B" "A" "a_1_amd64" none none false false false false [] []
      (by decide) (by decide)⟩

/-- C7 counterexample: a DEB install with icon file `foo-icon.png` and app
name `MyApp` puts the icon at `foo-icon.png` inside the icon directory, not
at the claimed `myapp.png` (app id + original extension): `_install_deb`
calls `_install_icon` without a name hint. -/
theorem deb_icon_keeps_name_cex :
    (installDeb sampleDebTree "MyApp" "myapp_1.0_amd64" (some "foo-icon.png") true true
        []).iconDest = some "foo-icon.png" ∧
    (installDeb sampleDebTree "MyApp" "myapp_1.0_amd64" (some "foo-icon.png") true true
        []).iconDest ≠ some (normName "MyApp" ++ pySuffix "foo-icon.png") := by
  refine ⟨?_, ?_⟩ <;> decide

/-- C7 (amended): on the DEB path the icon is copied into the per-user icon
directory under its original file name; the rename to the app id happens
only on the tar.gz path. -/
theorem deb_icon_original_name (fs : FS) (nm stem inm : String) (st : Store) :
    (installDeb fs nm stem (some inm) true true st).iconDest = some inm := by
  cases hloc : locatePayloadDeb fs nm stem with
  | none => simp [installDeb, hloc, installIcon]
  | some dm =>
    obtain ⟨d, m⟩ := dm
    cases m <;> simp [installDeb, hloc, installIcon]

/-- WHOLE_DIRECTORY payload used in the C3 counterexample: the walk finds
`bar` first, then `kiro-account-manager`, both executable. -/
def kiroTree : FS := [
  { path := ["opt"], isDir := true, isExec := false },
  { path := ["opt", "app"], isDir := true, isExec := false },
  { path := ["opt", "app", "bar"], isDir := false, isExec := true },
  { path := ["opt", "app", "kiro-account-manager"], isDir := false, isExec := true }]

/-- C3 counterexample: with app name `foo`, the claim selects the first
candidate `bar`, but the code prefers the hard-coded name
`kiro-account-manager` (source line 369), both through the full DEB install
and through the discovery function itself. -/
theorem deb_exec_kiro_cex :
    (installDeb kiroTree "foo" "foo_1.0_amd64" none false false []).result.executable =
      some ["kiro-account-manager"] ∧
    (debPickExecClaim "foo" (FS.subtreeUnder kiroTree ["opt", "app"])).map
        (fun e => e.path) = some ["bar"] ∧
    debPickExec "foo" (FS.subtreeUnder kiroTree ["opt", "app"]) ≠
      debPickExecClaim "foo" (FS.subtreeUnder kiroTree ["opt", "app"]) := by
  refine ⟨?_, ?_, ?_⟩ <;> decide

/-- C3 (amended): in whole-directory mode the primary executable is the
first non-excluded executable-bit file whose lowercased stem is the
normalized app name, the lowercased app name, or the hard-coded
`kiro-account-manager`; otherwise the first candidate in walk order. -/
theorem deb_exec_amended (nm : String) (contents : List Entry) :
    debPickExec nm contents = debPickExecAmended nm contents := by
  unfold debPickExec debPickExecAmended
  simp only [contains_three]

/-- Lookup of an app id after the payload copy followed by the library
step: the result depends only on the package tree and the copied contents,
not on the prior store. -/
theorem storeLookup_libStep_insert (fs : FS) (s : Store) (k : String)
    (v : List Entry) :
    storeLookup (libStep fs (storeInsert (storeRemove s k) k v) k) k =
      some (if fs.existsPath ["usr", "lib"] && !v.any (fun e => e.path == ["lib"]) then
        v ++ libEntries fs
      else v) := by
  by_cases h1 : fs.existsPath ["usr", "lib"] = true
  · by_cases h2 : v.any (fun e => e.path == ["lib"]) = true
    · simp [libStep, h1, h2, storeLookup_insert]
    · simp only [libStep, h1, if_true, storeLookup_insert]
      simp [h2, storeLookup_insert]
  · simp [libStep, h1, storeLookup_insert]

/-- C9: when a payload directory was located (DEB) or an executable
candidate exists (tar.gz), installing replaces the install directory
wholesale: the resulting contents are independent of whatever store was
there before, and for tar.gz they are exactly the newly extracted tree. -/
theorem reinstall_replaces (fs fsT : FS) (nm stem nmT : String)
    (ic icT : Option String) (ie co ieT coT : Bool) (s₁ s₂ tst : Store)
    (hd : (locatePayloadDeb fs nm stem).isSome)
    (ht : ((targzCandidates fsT).head?).isSome) :
    storeLookup (installDeb fs nm stem ic ie co s₁).store (normName nm) =
      storeLookup (installDeb fs nm stem ic ie co s₂).store (normName nm) ∧
    (storeLookup (installDeb fs nm stem ic ie co s₁).store (normName nm)).isSome ∧
    storeLookup (installTargz fsT nmT icT ieT coT tst).store (normName nmT) =
      some fsT := by
  obtain ⟨⟨d, m⟩, hloc⟩ := Option.isSome_iff_exists.mp hd
  obtain ⟨e, he⟩ := Option.isSome_iff_exists.mp ht
  refine ⟨?_, ?_, ?_⟩
  · cases m <;> simp [installDeb, hloc, storeLookup_libStep_insert]
  · cases m <;> simp [installDeb, hloc, storeLookup_libStep_insert]
  · simp [installTargz, he, storeLookup_insert]

/-- Witness for `reinstall_replaces` on concrete trees and stores. -/
theorem reinstall_replaces_witness :
    (locatePayloadDeb sampleDebTree "MyApp" "myapp_1.0_amd64").isSome = true ∧
    ((targzCandidates sampleToolTree).head?).isSome = true ∧
    (storeLookup
        (installDeb sampleDebTree "MyApp" "myapp_1.0_amd64" none false false
          [("myapp", [])]).store "myapp" =
      storeLookup
        (installDeb sampleDebTree "MyApp" "myapp_1.0_amd64" none false false []).store
        "myapp" ∧
    (storeLookup
        (installDeb sampleDebTree "MyApp" "myapp_1.0_amd64" none false false
          [("myapp", [])]).store "myapp").isSome ∧
    storeLookup
        (installTargz sampleToolTree "tool" none false false
          [("tool", shOnlyTree)]).store "tool" = some sampleToolTree) :=
  ⟨by decide, by decide,
    reinstall_replaces sampleDebTree sampleToolTree "MyApp" "myapp_1.0_amd64" "tool"
      none none false false false false [("myapp", [])] [] [("tool", shOnlyTree)]
      (by decide) (by decide)⟩

/-- Head of a stable descending insertion: the inserted element wins
exactly when its score is at least the head's. -/
theorem head?_insertDesc {α : Type} (score : α → Nat) (x : α) (s : List α) :
    (insertDesc score x s).head? =
      some (match s.head? with
            | none => x
            | some y => if score y ≤ score x then x else y) := by
  cases s with
  | nil => rfl
  | cons y ys => by_cases h : score y ≤ score x <;> simp [insertDesc, h]

/-- `firstMaxRec` yields `none` exactly on the empty list. -/
theorem firstMaxRec_eq_none {α : Type} (score : α → Nat) (l : List α) :
    firstMaxRec score l = none ↔ l = [] := by
  cases l with
  | nil => simp [firstMaxRec]
  | cons x xs =>
    cases hm : firstMaxRec score xs with
    | none => simp [firstMaxRec, hm]
    | some m =>
      by_cases h : score m ≤ score x <;> simp [firstMaxRec, hm, h]

/-- The head of the stable descending sort is the first maximal element. -/
theorem head?_sortDesc {α : Type} (score : α → Nat) (l : List α) :
    (sortDesc score l).head? = firstMaxRec score l := by
  induction l with
  | nil => rfl
  | cons x xs ih =>
    rw [sortDesc, head?_insertDesc, ih]
    cases hm : firstMaxRec score xs with
    | none => simp [firstMaxRec, hm]
    | some m =>
      by_cases h : score m ≤ score x <;> simp [firstMaxRec, hm, h]

/-- The element selected by `firstMaxRec` has maximal score. -/
theorem firstMaxRec_max {α : Type} (score : α → Nat) (l : List α) (c : α)
    (h : firstMaxRec score l = some c) : ∀ d ∈ l, score d ≤ score c := by
  induction l generalizing c with
  | nil => cases h
  | cons x xs ih =>
    intro d hd
    cases hm : firstMaxRec score xs with
    | none =>
      have hxs : xs = [] := (firstMaxRec_eq_none score xs).mp hm
      subst hxs
      have hcx : c = x := by
        simp [firstMaxRec] at h
        exact h.symm
      subst hcx
      simp at hd
      subst hd
      exact Nat.le_refl _
    | some m =>
      by_cases hle : score m ≤ score x
      · have hcx : c = x := by
          simp [firstMaxRec, hm, hle] at h
          exact h.symm
        subst hcx
        rcases List.mem_cons.mp hd with rfl | hdm
        · exact Nat.le_refl _
        · exact Nat.le_trans (ih m hm d hdm) hle
      · have hcm : c = m := by
          simp [firstMaxRec, hm, hle] at h
          exact h.symm
        subst hcm
        rcases List.mem_cons.mp hd with rfl | hdm
        · exact Nat.le_of_lt (Nat.lt_of_not_le hle)
        · exact ih c hm d hdm

/-- The element selected by `firstMaxRec` is the first one attaining its
score: everything at a strictly earlier position scores strictly less. -/
theorem firstMaxRec_first {α : Type} (score : α → Nat) (l : List α) (c : α)
    (h : firstMaxRec score l = some c) :
    ∃ i, l.get? i = some c ∧
      ∀ j d, j < i → l.get? j = some d → score d < score c := by
  induction l generalizing c with
  | nil => cases h
  | cons x xs ih =>
    cases hm : firstMaxRec score xs with
    | none =>
      have hcx : c = x := by
        rw [firstMaxRec, hm] at h
        exact (Option.some_inj.mp h).symm
      subst hcx
      exact ⟨0, rfl, fun j d hj _ => absurd hj (Nat.not_lt_zero j)⟩
    | some m =>
      by_cases hle : score m ≤ score x
      · have hcx : c = x := by
          rw [firstMaxRec, hm] at h
          simp [hle] at h
          exact h.symm
        subst hcx
        exact ⟨0, rfl, fun j d hj _ => absurd hj (Nat.not_lt_zero j)⟩
      · have hcm : c = m := by
          rw [firstMaxRec, hm] at h
          simp [hle] at h
          exact h.symm
        subst hcm
        obtain ⟨i, hi, hj⟩ := ih c hm
        refine ⟨i + 1, by simpa using hi, ?_⟩
        intro j d hjlt hget
        cases j with
        | zero =>
          have hdx : d = x := by simpa using hget.symm
          subst hdx
          exact Nat.lt_of_not_le hle
        | succ j' =>
          exact hj j' d (Nat.lt_of_succ_lt_succ hjlt) (by simpa using hget)

/-- C2: the icon `_find_icon_deep` selects is a candidate of maximal score,
and it is the first-encountered candidate of that score: every candidate at
an earlier position scores strictly less, so of any two candidates with
different scores the higher one is preferred and ties go to encounter
order. -/
theorem icon_selection_spec (a : String) (l : List IconCand) (c : IconCand)
    (h : findIconDeep a l = some c) :
    c ∈ l ∧ (∀ d ∈ l, iconScore a d ≤ iconScore a c) ∧
    ∃ i, l.get? i = some c ∧
      ∀ j d, j < i → l.get? j = some d → iconScore a d < iconScore a c := by
  rw [findIconDeep, head?_sortDesc] at h
  obtain ⟨i, hi, hj⟩ := firstMaxRec_first (iconScore a) l c h
  exact ⟨List.get?_mem hi, firstMaxRec_max (iconScore a) l c h, i, hi, hj⟩

/-- Tree used by the C2 witness: a screenshot PNG, a well-named sized icon
and a logo SVG. -/
def sampleIconTree : FS := [
  { path := ["docs"], isDir := true, isExec := false },
  { path := ["docs", "shot.png"], isDir := false, isExec := false },
  { path := ["icons"], isDir := true, isExec := false },
  { path := ["icons", "tool-256.png"], isDir := false, isExec := false },
  { path := ["logo.svg"], isDir := false, isExec := false }]

/-- The icon `_find_icon_deep` picks out of `sampleIconTree`. -/
def sampleIconPick : IconCand :=
  { full := "/tmp/pkg-installer-ab/icons/tool-256.png", name := "tool-256.png" }

/-- Witness for `icon_selection_spec` on the gathered candidates of
`sampleIconTree`. -/
theorem icon_selection_spec_witness :
    findIconDeep "tool" (gatherIcons sampleIconTree "/tmp/pkg-installer-ab") =
      some sampleIconPick ∧
    (sampleIconPick ∈ gatherIcons sampleIconTree "/tmp/pkg-installer-ab" ∧
      (∀ d ∈ gatherIcons sampleIconTree "/tmp/pkg-installer-ab",
        iconScore "tool" d ≤ iconScore "tool" sampleIconPick) ∧
      ∃ i, (gatherIcons sampleIconTree "/tmp/pkg-installer-ab").get? i =
          some sampleIconPick ∧
        ∀ j d, j < i →
          (gatherIcons sampleIconTree "/tmp/pkg-installer-ab").get? j = some d →
            iconScore "tool" d < iconScore "tool" sampleIconPick) :=
  ⟨by decide,
    icon_selection_spec "tool" (gatherIcons sampleIconTree "/tmp/pkg-installer-ab")
      sampleIconPick (by decide)⟩

/-- A directory entry at a path implies the path exists. -/
theorem existsPath_of_isDirAt {fs : FS} {p : List String}
    (h : fs.isDirAt p = true) : fs.existsPath p = true := by
  simp only [FS.isDirAt, List.any_eq_true, Bool.and_eq_true, beq_iff_eq] at h
  obtain ⟨e, he, hp, _⟩ := h
  simp only [FS.existsPath, List.any_eq_true, beq_iff_eq]
  exact ⟨e, he, hp⟩

/-- In a well-formed tree, an entry below the top level has an existing
parent. -/
theorem wfb_parent {fs : FS} (hwf : fs.wfb = true) {e : Entry} (he : e ∈ fs)
    (hne : e.path.dropLast ≠ []) : fs.existsPath e.path.dropLast = true := by
  simp only [FS.wfb, List.all_eq_true, Bool.and_eq_true, Bool.or_eq_true,
    List.isEmpty_iff, List.any_eq_true, beq_iff_eq] at hwf
  obtain ⟨-, h2⟩ := hwf e he
  rcases h2 with h2 | ⟨q, hq, hqp, -⟩
  · exact absurd h2 hne
  · simp only [FS.existsPath, List.any_eq_true, beq_iff_eq]
    exact ⟨q, hq, hqp⟩

/-- Step 1 agrees with the claim's phrasing on well-formed trees: the
explicit `opt/` existence check is redundant when a subdirectory of `opt/`
exists. -/
theorem optChoice_eq (fs : FS) (hwf : fs.wfb = true) :
    optChoiceSrc fs = optChoiceSpec fs := by
  unfold optChoiceSrc optChoiceSpec
  by_cases h : fs.existsPath ["opt"] = true
  · rw [if_pos h]
  · rw [if_neg h]
    cases hh : ((fs.childrenOf ["opt"]).filter (fun e => e.isDir)).head? with
    | none => simp [hh]
    | some e =>
      exfalso
      have hmem := head?_memL hh
      have hmem' : e ∈ fs.childrenOf ["opt"] := (List.mem_filter.mp hmem).1
      have hfs : e ∈ fs ∧ (!e.path.isEmpty && e.path.dropLast == ["opt"]) = true :=
        List.mem_filter.mp hmem'
      have hdrop : e.path.dropLast = ["opt"] := by
        have := hfs.2
        simp only [Bool.and_eq_true, beq_iff_eq] at this
        exact this.2
      have := wfb_parent hwf hfs.1 (by rw [hdrop]; simp)
      rw [hdrop] at this
      exact h this

/-- In a well-formed tree, a directory `base ++ [n]` forces `base` to
exist. -/
theorem base_exists_of_child {fs : FS} (hwf : fs.wfb = true) {base : List String}
    (hbase : base ≠ []) {n : String} (h : fs.isDirAt (base ++ [n]) = true) :
    fs.existsPath base = true := by
  simp only [FS.isDirAt, List.any_eq_true, Bool.and_eq_true, beq_iff_eq] at h
  obtain ⟨e, he, hp, _⟩ := h
  have hdrop : e.path.dropLast = base := by rw [hp]; simp
  have := wfb_parent hwf he (by rw [hdrop]; exact hbase)
  rwa [hdrop] at this

/-- The per-base search of step 2 agrees with the claim's phrasing on
well-formed trees: the base-directory existence check and the redundant
candidate existence check change nothing. -/
theorem inner_base_eq (fs : FS) (hwf : fs.wfb = true) (names : List String)
    (base : List String) (hbase : base ≠ []) :
    (if fs.existsPath base then
        names.findSome? (fun n =>
          if fs.existsPath (base ++ [n]) && fs.isDirAt (base ++ [n]) then
            some (base ++ [n])
          else none)
      else none) =
    names.findSome? (fun n =>
      if fs.isDirAt (base ++ [n]) then some (base ++ [n]) else none) := by
  by_cases h : fs.existsPath base = true
  · rw [if_pos h]
    apply findSome?_ext
    intro n
    by_cases hd : fs.isDirAt (base ++ [n]) = true
    · rw [hd, existsPath_of_isDirAt hd]
      simp
    · simp only [Bool.not_eq_true] at hd
      rw [hd]
      simp
  · rw [if_neg h]
    symm
    rw [List.findSome?_eq_none_iff]
    intro n _
    by_cases hd : fs.isDirAt (base ++ [n]) = true
    · exact absurd (base_exists_of_child hwf hbase hd) h
    · simp only [Bool.not_eq_true] at hd
      rw [hd]
      simp

/-- Step 2 agrees with the claim's phrasing on well-formed trees. -/
theorem usrChoice_eq (fs : FS) (hwf : fs.wfb = true) (names : List String) :
    usrChoiceSrc fs names = usrChoiceSpec fs names := by
  unfold usrChoiceSrc usrChoiceSpec
  simp only [List.findSome?]
  rw [inner_base_eq fs hwf names ["usr", "lib"] (by simp),
    inner_base_eq fs hwf names ["usr", "share"] (by simp)]

/-- C1: on any well-formed extracted tree, the payload-directory search of
`_install_deb` follows exactly the claim's priority order: first
subdirectory under `opt/`; else the first name match under `usr/lib` then
`usr/share`; else a non-empty `usr/bin` in loose-binaries mode; else no
payload. -/
theorem payload_priority (fs : FS) (nm stem : String) (hwf : fs.wfb = true) :
    locatePayloadDeb fs nm stem = locatePayloadSpec fs nm stem := by
  unfold locatePayloadDeb locatePayloadSpec
  rw [optChoice_eq fs hwf, usrChoice_eq fs hwf (searchNamesOf nm stem)]
  cases optChoiceSpec fs with
  | some d => rfl
  | none =>
    cases usrChoiceSpec fs (searchNamesOf nm stem) with
    | some d => rfl
    | none => rfl

/-- Witness for `payload_priority` on `sampleDebTree`. -/
theorem payload_priority_witness :
    FS.wfb sampleDebTree = true ∧
    locatePayloadDeb sampleDebTree "MyApp" "myapp_1.0_amd64" =
      locatePayloadSpec sampleDebTree "MyApp" "myapp_1.0_amd64" :=
  ⟨by decide, payload_priority sampleDebTree "MyApp" "myapp_1.0_amd64" (by decide)⟩
